import Mathlib

/-!
Verification development for the `ForceManualTransfer` MoviePilot plugin
(`plugins/doubanrankplus/__init__.py`).

The plugin batch-renames a flat directory of media files into
`<target>/<media_name>/Season <n>/<media_name> - SxxEyy<ext>`, inferring
episode numbers from filename stems (`_get_episode`) and falling back to a
sequential counter, then performing one of four transfer operations
(`_do_transfer`).

The embedding below is a direct shallow translation of the Python source:
  * strings are Lean `String`s (lists of unicode codepoints, matching
    Python `str` semantics for comparison and slicing);
  * the regular expressions `(?i)(?:e|ep|第)\s*(\d+)` (via `re.search`) and
    `(\d+)` (via `re.findall`) are translated into explicit left-to-right
    scanners; `\d` and `\s` are modelled by their ASCII classes, and
    `str.lower` by the ASCII case mapping, which is exact on all the
    filenames and extensions the plugin's allow-list concerns;
  * `pathlib.Path.stem` / `.suffix` are translated from their CPython
    definitions (last dot at an index `i` with `0 < i < len - 1`);
  * the filesystem is an explicit list of existing paths, and the fallible
    operations (`Path.unlink` and the four transfer calls) are driven by an
    oracle saying which concrete calls raise; a raised exception outside
    the `try` block aborts the run (`Except.error`), one inside is caught.
-/

/-- ASCII whitespace class of Python's regex `\s` (space, tab, newline,
carriage return, vertical tab, form feed). -/
def isSpaceChar (c : Char) : Bool :=
  c == ' ' || c == '\t' || c == '\n' || c == '\r' || c == '\x0b' || c == '\x0c'

/-- Numeric value of a digit string, as Python `int` on a run of digits. -/
def digitsVal (ds : List Char) : Nat :=
  List.foldl (fun acc c => 10 * acc + (c.toNat - 48)) 0 ds

/-- After an `e`/`ep`/`第` marker: `\s*(\d+)` — skip optional whitespace,
then require at least one digit and return the value of the digit run. -/
def matchDigitsAfterWs (cs : List Char) : Option Nat :=
  let rest := cs.dropWhile isSpaceChar
  let ds := rest.takeWhile Char.isDigit
  if ds.isEmpty then none else some (digitsVal ds)

/-- Attempt of the pattern `(?i)(?:e|ep|第)\s*(\d+)` anchored at the head of
the character list, alternatives tried in regex order `e`, `ep`, `第`. -/
def matchMarkerAt : List Char → Option Nat
  | [] => none
  | c :: rest =>
    if c == 'e' || c == 'E' then
      match matchDigitsAfterWs rest with
      | some n => some n
      | none =>
        match rest with
        | p :: rest2 => if p == 'p' || p == 'P' then matchDigitsAfterWs rest2 else none
        | [] => none
    else if c == '第' then matchDigitsAfterWs rest
    else none

/-- `re.search` of the marker pattern: try every start position left to
right, first success wins. -/
def searchMarker : List Char → Option Nat
  | [] => none
  | c :: rest =>
    match matchMarkerAt (c :: rest) with
    | some n => some n
    | none => searchMarker rest

/-- Scanner for `re.findall(r'(\d+)', s)`: maximal digit runs in
left-to-right order.  `acc` holds the digits of the current run, reversed. -/
def digitRunsAux : List Char → List Char → List (List Char)
  | [], acc => if acc.isEmpty then [] else [acc.reverse]
  | c :: rest, acc =>
    if c.isDigit then digitRunsAux rest (c :: acc)
    else if acc.isEmpty then digitRunsAux rest []
    else acc.reverse :: digitRunsAux rest []

/-- All maximal digit runs of a character list, left to right. -/
def digitRuns (cs : List Char) : List (List Char) :=
  digitRunsAux cs []

/-- The blacklist of codec/resolution numbers from `_get_episode`. -/
def numBlacklist : List Nat := [264, 265, 720, 480]

/-- Filter of `_get_episode`'s comprehension:
`int(n) < 1000 and int(n) not in [264, 265, 720, 480]`. -/
def validEpisodeNum (n : Nat) : Bool :=
  decide (n < 1000) && !(numBlacklist.contains n)

/-- Translation of `_get_episode(filename)`: first the marker pattern via
`re.search`; otherwise the last surviving value of the filtered digit runs;
otherwise `None`. -/
def get_episode (stem : String) : Option Nat :=
  match searchMarker stem.data with
  | some n => some n
  | none =>
    let numbers := (digitRuns stem.data).map digitsVal
    let valid_nums := numbers.filter validEpisodeNum
    if valid_nums.isEmpty then none else valid_nums.getLast?

/-- Index of the last `'.'` in a character list (`str.rfind('.')` when it
exists). -/
def rfindDot (cs : List Char) : Option Nat :=
  ((cs.enum.filter (fun p => p.2 == '.')).getLast?).map (fun p => p.1)

/-- `pathlib.PurePath.suffix` on a plain filename: the part from the last
dot on, provided that dot is neither the first nor the last character. -/
def pathSuffix (name : String) : String :=
  match rfindDot name.data with
  | some i =>
    if 0 < i ∧ i < name.data.length - 1 then String.mk (name.data.drop i) else ""
  | none => ""

/-- `pathlib.PurePath.stem` on a plain filename: the part before the last
dot, under the same proviso as `pathSuffix`. -/
def pathStem (name : String) : String :=
  match rfindDot name.data with
  | some i =>
    if 0 < i ∧ i < name.data.length - 1 then String.mk (name.data.take i) else name
  | none => name

/-- `str.lower`, ASCII case mapping per character. -/
def strLower (s : String) : String :=
  String.mk (s.data.map Char.toLower)

/-- The extension allow-list `_exts` of the plugin. -/
def exts : List String :=
  [".strm", ".mp4", ".mkv", ".ts", ".avi", ".rmvb", ".wmv", ".mov", ".flv",
   ".ass", ".srt", ".nfo"]

/-- Eligibility filter of `_do_transfer`:
`f.suffix.lower() in self._exts` (the listing is assumed to contain the
regular files of the source directory, matching `f.is_file()`). -/
def eligible (name : String) : Bool :=
  decide (strLower (pathSuffix name) ∈ exts)

/-- Python whitespace stripping on both ends, as `int(str)` does before
parsing. -/
def stripWs (cs : List Char) : List Char :=
  ((cs.dropWhile isSpaceChar).reverse.dropWhile isSpaceChar).reverse

/-- Python `int(s)` on a string: optional sign then a non-empty digit run
(underscore separators are not modelled); `none` when parsing raises
`ValueError`. -/
def parseIntPy (s : String) : Option Int :=
  match stripWs s.data with
  | [] => none
  | '+' :: ds =>
    if ds.isEmpty || !ds.all Char.isDigit then none else some (digitsVal ds : Nat)
  | '-' :: ds =>
    if ds.isEmpty || !ds.all Char.isDigit then none else some (-(digitsVal ds : Nat))
  | ds =>
    if ds.all Char.isDigit then some (digitsVal ds : Nat) else none

/-- `try: season_num = int(self._season) except: season_num = 1`. -/
def seasonNum (s : String) : Int :=
  (parseIntPy s).getD 1

/-- Python `format(n, '02d')` on a non-negative value: zero-pad to width 2. -/
def pad2Nat (n : Nat) : String :=
  if n < 10 then "0" ++ toString n else toString n

/-- Python `format(n, '02d')` on an `int`; for negative values the sign
counts toward the width, so the plain decimal form is already wide enough. -/
def pad2Int (n : Int) : String :=
  if n < 0 then toString n else pad2Nat n.toNat

/-- Destination filename template of `_do_transfer`:
`f"{self._media_name} - S{season_num:02d}E{ep:02d}{ext}"`. -/
def new_filename (media_name : String) (season_num : Int) (ep : Nat) (ext : String) : String :=
  media_name ++ " - S" ++ pad2Int season_num ++ "E" ++ pad2Nat ep ++ ext

/-- Destination directory of `_do_transfer`:
`Path(self._target_path) / self._media_name / f"Season {season_num}"`. -/
def target_dir (target_path media_name : String) (season_num : Int) : String :=
  target_path ++ "/" ++ media_name ++ "/Season " ++ toString season_num

/-- Codepoint-lexicographic comparison of character lists, the order Python
uses on `str`: compare elementwise, shorter prefix first. -/
def lexLe : List Char → List Char → Bool
  | [], _ => true
  | _ :: _, [] => false
  | a :: as, b :: bs =>
    if a < b then true else if b < a then false else lexLe as bs

/-- The sort relation of `files.sort(key=lambda x: x.name)`. -/
def nameLe (a b : String) : Prop :=
  lexLe a.data b.data = true

instance : DecidableRel nameLe := fun _ _ => instDecidableEqBool _ _

/-- `files.sort(key=lambda x: x.name)`: ascending codepoint-lexicographic
sort on filenames.  (Any sorted permutation agrees with Python's stable sort
here, because the sort key is the whole element.) -/
def sortByName (l : List String) : List String :=
  List.insertionSort nameLe l

/-- The run configuration fields the pipeline reads (season kept as the raw
configured string, coerced by `seasonNum`). -/
structure Config where
  source_path : String
  target_path : String
  media_name : String
  season : String
  transfer_type : String
deriving DecidableEq

/-- Filesystem-mutating and notification effects of a run, in order. -/
inductive Effect where
  | mkdirP (path : String)
  | unlink (path : String)
  | transferOp (mode : String) (src : String) (dst : String)
  | postMsg (title : String) (text : String)
deriving DecidableEq

/-- Mutable state threaded through the per-file loop of `_do_transfer`:
the set of existing paths, the fallback counter, the success counter and
the trace of effects so far. -/
structure RunState where
  fs : List String
  fallbackEp : Nat
  successCount : Nat
  effects : List Effect
deriving DecidableEq

/-- Oracle deciding which filesystem calls raise: `unlinkFails p` for
`Path(p).unlink()`, `transferFails mode src dst` for the transfer call. -/
structure FsOracle where
  unlinkFails : String → Bool
  transferFails : String → String → String → Bool

/-- Result of one `_do_transfer` call: validation failure (early `return`),
an uncaught exception escaping the method, or normal completion. -/
inductive RunResult where
  | aborted
  | raised (st : RunState)
  | completed (st : RunState)
deriving DecidableEq

/-- Episode assigned to a file at the current state:
`self._get_episode(file.stem)`, else the fallback counter. -/
def epAssigned (st : RunState) (name : String) : Nat :=
  (get_episode (pathStem name)).getD st.fallbackEp

/-- Fallback counter after a file: incremented exactly when extraction
returned `None`. -/
def fallbackAfter (st : RunState) (name : String) : Nat :=
  if (get_episode (pathStem name)).isSome then st.fallbackEp else st.fallbackEp + 1

/-- Full destination path `target_dir / new_filename` computed for a file
at the current state. -/
def destPath (cfg : Config) (season_num : Int) (tDir : String) (st : RunState)
    (name : String) : String :=
  tDir ++ "/" ++
    new_filename cfg.media_name season_num (epAssigned st name) (strLower (pathSuffix name))

/-- Full path of a source file inside the source directory. -/
def srcPath (cfg : Config) (name : String) : String :=
  cfg.source_path ++ "/" ++ name

/-- Whether the configured transfer type is one of the four the `if`/`elif`
chain of `_do_transfer` handles. -/
def isKnownMode (m : String) : Bool :=
  m == "move" || m == "copy" || m == "link" || m == "softlink"

/-- Filesystem after a successful transfer call: all four operations create
`dst`; `move` additionally removes the source path. -/
def fsAfterOp (mode srcP dst : String) (fs : List String) : List String :=
  if mode = "move" then dst :: fs.erase srcP else dst :: fs

/-- The `try` block of `_do_transfer`: run the `if`/`elif` chain (a raise
inside is caught, skipping the success increment; a `transfer_type` outside
the four cases performs no operation and still counts as a success). -/
def attemptOp (cfg : Config) (orc : FsOracle) (srcP dst : String) (st : RunState) : RunState :=
  if isKnownMode cfg.transfer_type then
    if orc.transferFails cfg.transfer_type srcP dst then st
    else
      { st with
        fs := fsAfterOp cfg.transfer_type srcP dst st.fs,
        effects := st.effects ++ [Effect.transferOp cfg.transfer_type srcP dst],
        successCount := st.successCount + 1 }
  else { st with successCount := st.successCount + 1 }

/-- One iteration of the `for file in files` loop: episode assignment,
destination computation, the unconditional `unlink` of an existing
destination (outside the `try`, so a raise there escapes as
`Except.error`), then the guarded transfer attempt. -/
def processFile (cfg : Config) (season_num : Int) (tDir : String) (orc : FsOracle)
    (st : RunState) (name : String) : Except RunState RunState :=
  let dst := destPath cfg season_num tDir st name
  if dst ∈ st.fs then
    if orc.unlinkFails dst then Except.error { st with fallbackEp := fallbackAfter st name }
    else
      Except.ok (attemptOp cfg orc (srcPath cfg name) dst
        { st with
          fallbackEp := fallbackAfter st name
          fs := st.fs.erase dst
          effects := st.effects ++ [Effect.unlink dst] })
  else
    Except.ok (attemptOp cfg orc (srcPath cfg name) dst
      { st with fallbackEp := fallbackAfter st name })

/-- The whole `for` loop, propagating an uncaught exception. -/
def processFiles (cfg : Config) (season_num : Int) (tDir : String) (orc : FsOracle) :
    List String → RunState → Except RunState RunState
  | [], st => Except.ok st
  | name :: rest, st =>
    match processFile cfg season_num tDir orc st name with
    | Except.error st1 => Except.error st1
    | Except.ok st1 => processFiles cfg season_num tDir orc rest st1

/-- The completion notification text of `_do_transfer`:
`f"剧集: {self._media_name}\n共处理: {success_count} 个文件\n方式: {self._transfer_type}"`. -/
def msgText (cfg : Config) (n : Nat) : String :=
  "剧集: " ++ cfg.media_name ++ "\n共处理: " ++ toString n ++ " 个文件\n方式: " ++
    cfg.transfer_type

/-- Translation of `_do_transfer`.  `srcDirOk` models
`src_dir.exists() and src_dir.is_dir()`; `listing` the regular files of the
source directory (in arbitrary order); `fs0` the paths existing under the
target before the run. -/
def do_transfer (cfg : Config) (srcDirOk : Bool) (listing : List String)
    (fs0 : List String) (orc : FsOracle) : RunResult :=
  if cfg.source_path = "" ∨ cfg.target_path = "" ∨ cfg.media_name = "" then
    RunResult.aborted
  else if srcDirOk = false then RunResult.aborted
  else
    let season_num := seasonNum cfg.season
    let tDir := target_dir cfg.target_path cfg.media_name season_num
    let files := sortByName (listing.filter eligible)
    let st0 : RunState :=
      { fs := fs0, fallbackEp := 1, successCount := 0, effects := [Effect.mkdirP tDir] }
    match processFiles cfg season_num tDir orc files st0 with
    | Except.error st => RunResult.raised st
    | Except.ok st =>
      RunResult.completed
        { st with
          effects := st.effects ++
            [Effect.postMsg "强制整理成功" (msgText cfg st.successCount)] }

/-- The effect trace a run produced (empty when validation aborted it). -/
def runEffects : RunResult → List Effect
  | RunResult.aborted => []
  | RunResult.raised st => st.effects
  | RunResult.completed st => st.effects

/-- Whether the run ran to completion (reached the notification call). -/
def runCompleted : RunResult → Bool
  | RunResult.completed _ => true
  | _ => false

/-- The text of the last notification a completed run posted, if any. -/
def runMsg : RunResult → Option String
  | RunResult.completed st =>
    st.effects.reverse.findSome? (fun e =>
      match e with
      | Effect.postMsg _ t => some t
      | _ => none)
  | _ => none

/-- Sequencing logic of lines 95–102 in isolation: sort the eligible names,
then assign each file its extracted episode, or the fallback counter
(threaded left to right, starting at 1 and bumped only on extraction
failure).  The boolean records whether the fallback was used. -/
def assignGo : List String → Nat → List (String × Nat × Bool)
  | [], _ => []
  | n :: rest, fb =>
    match get_episode (pathStem n) with
    | some e => (n, e, false) :: assignGo rest fb
    | none => (n, fb, true) :: assignGo rest (fb + 1)

/-- Episode assignment of a whole run, per sorted file. -/
def assignEpisodes (names : List String) : List (String × Nat × Bool) :=
  assignGo (sortByName names) 1

/-- Effects carried by either outcome of the loop. -/
def exceptEffects : Except RunState RunState → List Effect
  | Except.error st => st.effects
  | Except.ok st => st.effects

/-- Shape of any effect the per-file loop can append: an unlink of some
path, or a transfer whose destination follows the naming template under the
target directory. -/
def stepEffect (cfg : Config) (season_num : Int) (tDir : String) (e : Effect) : Prop :=
  (∃ p, e = Effect.unlink p) ∨
  ∃ m s ep ext,
    e = Effect.transferOp m s (tDir ++ "/" ++ new_filename cfg.media_name season_num ep ext)

/-- An oracle under which no filesystem call raises. -/
def orcOk : FsOracle :=
  { unlinkFails := fun _ => false, transferFails := fun _ _ _ => false }

/-- An oracle under which every transfer operation raises (but removals
succeed). -/
def orcFailTransfer : FsOracle :=
  { unlinkFails := fun _ => false, transferFails := fun _ _ _ => true }

/-- A well-formed copy configuration used in concrete runs. -/
def cfgShow : Config :=
  { source_path := "/s", target_path := "/t", media_name := "Show",
    season := "1", transfer_type := "copy" }

/-- An oracle under which removing the pre-existing file
`/t/Show/Season 1/Show - S01E01.mp4` raises (e.g. permission denied), and
everything else succeeds. -/
def orcFailUnlink : FsOracle :=
  { unlinkFails := fun p => p == "/t/Show/Season 1/Show - S01E01.mp4",
    transferFails := fun _ _ _ => false }

/-- A loop state in which an earlier run already placed episode 5 at the
destination. -/
def stPre : RunState :=
  { fs := ["/t/Show/Season 1/Show - S01E05.mkv"], fallbackEp := 1,
    successCount := 0, effects := [] }

/-- A configuration whose transfer type is none of the four handled modes. -/
def cfgUnknown : Config :=
  { source_path := "/s", target_path := "/t", media_name := "Show",
    season := "1", transfer_type := "rsync" }

/-- Spec reading of step 1 of the Extractor: the value of the first
(leftmost) match of the marker pattern, phrased as a search over all
suffixes in left-to-right order. -/
def firstMarkerValue (cs : List Char) : Option Nat :=
  cs.tails.findSome? matchMarkerAt

/-- Spec reading of step 2 of the Extractor: the last maximal digit run (in
left-to-right order) whose value is < 1000 and not blacklisted. -/
def lastValidRun (cs : List Char) : Option Nat :=
  (((digitRuns cs).map digitsVal).filter validEpisodeNum).getLast?

/-- The Episode Extractor as the specification words it: first-marker-match
value, else last surviving digit run, else unknown. -/
def episodeSpec (s : String) : Option Nat :=
  match firstMarkerValue s.data with
  | some n => some n
  | none => lastValidRun s.data

/-- Whether extraction fails on a filename (drives the fallback counter). -/
def unknownName (n : String) : Bool :=
  (get_episode (pathStem n)).isNone

/-- Value given to the `i`-th sorted file when `k` files before it were
unknown and the counter started at `fb`. -/
def assignedVal (fb : Nat) (name : String) (k : Nat) : Nat × Bool :=
  match get_episode (pathStem name) with
  | some e => (e, false)
  | none => (fb + k, true)


/-- `lexLe` decides the negation of the core lexicographic strict order. -/
theorem lexLe_iff : ∀ as bs : List Char, lexLe as bs = true ↔ ¬ List.lt bs as := by
  intro as
  induction as with
  | nil =>
    intro bs
    constructor
    · intro _ h
      cases h
    · intro _
      rfl
  | cons a as ih =>
    intro bs
    cases bs with
    | nil =>
      constructor
      · intro h
        exact absurd h (by simp [lexLe])
      · intro h
        exact absurd (List.lt.nil a as) h
    | cons b bs =>
      simp only [lexLe]
      by_cases hab : a < b
      · rw [if_pos hab]
        constructor
        · intro _ h
          cases h with
          | head as2 bs2 h2 => exact absurd hab (lt_asymm h2)
          | tail h1 h2 h3 => exact h2 hab
        · intro _
          rfl
      · by_cases hba : b < a
        · rw [if_neg hab, if_pos hba]
          constructor
          · intro h
            exact Bool.noConfusion h
          · intro h
            exact absurd (List.lt.head bs as hba) h
        · rw [if_neg hab, if_neg hba]
          rw [ih bs]
          constructor
          · intro h hlt
            cases hlt with
            | head as2 bs2 h2 => exact hba h2
            | tail h1 h2 h3 => exact h h3
          · intro h hlt
            exact h (List.lt.tail hba hab hlt)

/-- `nameLe` is the standard linear order on strings. -/
theorem nameLe_iff_le (a b : String) : nameLe a b ↔ a ≤ b := by
  have hlt : b < a ↔ List.lt b.data a.data := by
    rw [String.lt_iff_toList_lt, List.lt_iff_lex_lt]
    exact Iff.rfl
  rw [show (a ≤ b) = ¬ (b < a) from rfl, hlt]
  exact lexLe_iff a.data b.data

theorem nameLe_total (a b : String) : nameLe a b ∨ nameLe b a := by
  rw [nameLe_iff_le, nameLe_iff_le]
  exact le_total a b

theorem nameLe_trans {a b c : String} (h1 : nameLe a b) (h2 : nameLe b c) : nameLe a c := by
  rw [nameLe_iff_le] at *
  exact le_trans h1 h2

/-- The sorted listing is sorted in the standard string order. -/
theorem sortByName_sorted (l : List String) : List.Sorted (fun a b => a ≤ b) (sortByName l) := by
  haveI : IsTotal String nameLe := ⟨nameLe_total⟩
  haveI : IsTrans String nameLe := ⟨fun _ _ _ => nameLe_trans⟩
  exact (List.sorted_insertionSort nameLe l).imp (fun h => (nameLe_iff_le _ _).mp h)

/-- The sorted listing is a permutation of the input listing. -/
theorem sortByName_perm (l : List String) : (sortByName l).Perm l :=
  List.perm_insertionSort nameLe l

/-- The recursive search equals the first-match-over-all-suffixes reading. -/
theorem searchMarker_eq_firstMarkerValue (cs : List Char) :
    searchMarker cs = firstMarkerValue cs := by
  unfold firstMarkerValue
  induction cs with
  | nil => rfl
  | cons c rest ih =>
    rw [List.tails_cons, List.findSome?_cons]
    unfold searchMarker
    cases matchMarkerAt (c :: rest) with
    | some n => rfl
    | none => exact ih

/-- The assignment keeps the sorted file order. -/
theorem assignGo_map_fst : ∀ (l : List String) (fb : Nat),
    (assignGo l fb).map (fun t => t.1) = l := by
  intro l
  induction l with
  | nil => intro fb; rfl
  | cons n rest ih =>
    intro fb
    unfold assignGo
    cases get_episode (pathStem n) with
    | some e => simp [ih]
    | none => simp [ih]

/-- Positional characterization of the fallback counter: the `i`-th sorted
file receives its extracted episode, or `fb` plus the number of unknown
files strictly before it. -/
theorem assignGo_getElem? : ∀ (l : List String) (fb i : Nat) (name : String),
    l[i]? = some name →
      (assignGo l fb)[i]? =
        some (name, assignedVal fb name (((l.take i).filter unknownName).length)) := by
  intro l
  induction l with
  | nil =>
    intro fb i name h
    simp at h
  | cons n rest ih =>
    intro fb i name h
    cases i with
    | zero =>
      simp only [List.getElem?_cons_zero, Option.some.injEq] at h
      subst h
      unfold assignGo assignedVal
      cases hg : get_episode (pathStem n) with
      | some e => simp [hg]
      | none => simp [hg]
    | succ i =>
      simp only [List.getElem?_cons_succ] at h
      unfold assignGo
      cases hg : get_episode (pathStem n) with
      | some e =>
        have hu : unknownName n = false := by
          unfold unknownName
          rw [hg]
          rfl
        have htake : ((n :: rest).take (i + 1)).filter unknownName =
            (rest.take i).filter unknownName := by
          rw [List.take_succ_cons, List.filter_cons, hu]
          simp
        rw [List.getElem?_cons_succ, ih fb i name h, htake]
      | none =>
        have hu : unknownName n = true := by
          unfold unknownName
          rw [hg]
          rfl
        have htake : ((n :: rest).take (i + 1)).filter unknownName =
            n :: (rest.take i).filter unknownName := by
          rw [List.take_succ_cons, List.filter_cons, hu]
          simp
        rw [List.getElem?_cons_succ, ih (fb + 1) i name h, htake]
        unfold assignedVal
        cases get_episode (pathStem name) with
        | some e => rfl
        | none =>
          have harith : fb + 1 + ((rest.take i).filter unknownName).length =
              fb + (n :: (rest.take i).filter unknownName).length := by
            rw [List.length_cons]
            omega
          rw [harith]

/-- C2: the run processes eligible files in ascending lexicographic
filename order (the sorted listing is a sorted permutation of the input),
and a fallback counter starting at 1, bumped only on unknown extraction,
numbers the unknown files; three all-unknown files `A.mp4, B.mp4, C.mp4`
get episodes 1, 2, 3 in that order. -/
theorem sequencer_C2 (names : List String) (i : Nat) (name : String)
    (h : (sortByName names)[i]? = some name) :
    (sortByName names).Perm names ∧
    List.Sorted (fun a b => a ≤ b) (sortByName names) ∧
    (assignEpisodes names).map (fun t => t.1) = sortByName names ∧
    (assignEpisodes names)[i]? =
      some (name, assignedVal 1 name ((((sortByName names).take i).filter unknownName).length)) ∧
    assignEpisodes ["B.mp4", "C.mp4", "A.mp4"] =
      [("A.mp4", 1, true), ("B.mp4", 2, true), ("C.mp4", 3, true)] :=
  ⟨sortByName_perm names, sortByName_sorted names,
    assignGo_map_fst (sortByName names) 1,
    assignGo_getElem? (sortByName names) 1 i name h,
    by decide⟩

/-- C2 witness: at the concrete three-file listing, position 0 holds
`A.mp4` with fallback episode 1. -/
theorem sequencer_C2_witness :
    (assignEpisodes ["B.mp4", "C.mp4", "A.mp4"])[0]? =
      some ("A.mp4",
        assignedVal 1 "A.mp4"
          ((((sortByName ["B.mp4", "C.mp4", "A.mp4"]).take 0).filter unknownName).length)) :=
  (sequencer_C2 ["B.mp4", "C.mp4", "A.mp4"] 0 "A.mp4" (by decide)).2.2.2.1

/-- A per-file step never raises when the removal of an existing
destination file cannot fail. -/
theorem processFile_ok (cfg : Config) (sn : Int) (tDir : String) (orc : FsOracle)
    (st : RunState) (name : String)
    (hU : orc.unlinkFails (destPath cfg sn tDir st name) = false) :
    ∃ st2, processFile cfg sn tDir orc st name = Except.ok st2 := by
  simp only [processFile]
  by_cases hm : destPath cfg sn tDir st name ∈ st.fs
  · rw [if_pos hm, hU]
    rw [if_neg Bool.false_ne_true]
    exact ⟨_, rfl⟩
  · rw [if_neg hm]
    exact ⟨_, rfl⟩

/-- The loop never raises when unlink calls cannot fail. -/
theorem processFiles_ok (cfg : Config) (sn : Int) (tDir : String) (orc : FsOracle)
    (hU : ∀ p, orc.unlinkFails p = false) :
    ∀ (l : List String) (st : RunState),
      ∃ st2, processFiles cfg sn tDir orc l st = Except.ok st2 := by
  intro l
  induction l with
  | nil =>
    intro st
    exact ⟨st, rfl⟩
  | cons name rest ih =>
    intro st
    obtain ⟨st1, h1⟩ := processFile_ok cfg sn tDir orc st name (hU _)
    obtain ⟨st2, h2⟩ := ih st1
    refine ⟨st2, ?_⟩
    unfold processFiles
    rw [h1]
    exact h2

/-- When validation passes and unlink calls cannot fail, the run reaches its
completion notification, whatever the transfer oracle does. -/
theorem run_completes (cfg : Config) (srcDirOk : Bool) (listing fs0 : List String)
    (orc : FsOracle)
    (hv : ¬(cfg.source_path = "" ∨ cfg.target_path = "" ∨ cfg.media_name = ""))
    (hs : srcDirOk = true)
    (hU : ∀ p, orc.unlinkFails p = false) :
    ∃ st, do_transfer cfg srcDirOk listing fs0 orc = RunResult.completed st ∧
      runMsg (do_transfer cfg srcDirOk listing fs0 orc) =
        some (msgText cfg st.successCount) := by
  obtain ⟨st2, hp⟩ :=
    processFiles_ok cfg (seasonNum cfg.season)
      (target_dir cfg.target_path cfg.media_name (seasonNum cfg.season)) orc hU
      (sortByName (listing.filter eligible))
      { fs := fs0, fallbackEp := 1, successCount := 0,
        effects := [Effect.mkdirP
          (target_dir cfg.target_path cfg.media_name (seasonNum cfg.season))] }
  have hrun : do_transfer cfg srcDirOk listing fs0 orc =
      RunResult.completed
        { st2 with
          effects := st2.effects ++
            [Effect.postMsg "强制整理成功" (msgText cfg st2.successCount)] } := by
    simp only [do_transfer]
    rw [if_neg hv, hs]
    rw [if_neg (by simp : ¬(true = false))]
    rw [hp]
  refine ⟨_, hrun, ?_⟩
  rw [hrun]
  dsimp only [runMsg]
  rw [List.reverse_append]
  rfl

/-- C3 counterexample: a run whose configuration passes validation, but in
which removing the pre-existing destination file of the first sorted file
(`a.mp4`, fallback episode 1) raises: the run does not complete, posts no
summary, and the second file (`b.mp4`) is never processed — its only effect
is the initial directory creation. -/
theorem isolation_C3_counterexample :
    (cfgShow.source_path ≠ "" ∧ cfgShow.target_path ≠ "" ∧ cfgShow.media_name ≠ "") ∧
    runCompleted
        (do_transfer cfgShow true ["a.mp4", "b.mp4"]
          ["/t/Show/Season 1/Show - S01E01.mp4"] orcFailUnlink) = false ∧
    runMsg
        (do_transfer cfgShow true ["a.mp4", "b.mp4"]
          ["/t/Show/Season 1/Show - S01E01.mp4"] orcFailUnlink) = none ∧
    runEffects
        (do_transfer cfgShow true ["a.mp4", "b.mp4"]
          ["/t/Show/Season 1/Show - S01E01.mp4"] orcFailUnlink) =
      [Effect.mkdirP "/t/Show/Season 1"] := by
  refine ⟨by decide, by decide, by decide, by decide⟩

/-- C3 (amended): failures raised inside the transfer operation itself are
caught and isolated per file, and provided no removal of a pre-existing
destination file fails, the run always completes and posts a summary — for
every transfer-failure oracle, including one failing every file.  (A
destination-removal failure, by contrast, escapes and aborts the run, per
the counterexample.) -/
theorem isolation_C3 (cfg : Config) (srcDirOk : Bool) (listing fs0 : List String)
    (orc : FsOracle)
    (hv : ¬(cfg.source_path = "" ∨ cfg.target_path = "" ∨ cfg.media_name = ""))
    (hs : srcDirOk = true)
    (hU : ∀ p, orc.unlinkFails p = false) :
    ∃ st, do_transfer cfg srcDirOk listing fs0 orc = RunResult.completed st ∧
      (runMsg (do_transfer cfg srcDirOk listing fs0 orc)).isSome = true := by
  obtain ⟨st, h1, h2⟩ := run_completes cfg srcDirOk listing fs0 orc hv hs hU
  refine ⟨st, h1, ?_⟩
  rw [h2]
  rfl

/-- C3 witness: with the oracle failing every transfer call, a concrete
one-file run still completes and posts a summary. -/
theorem isolation_C3_witness :
    ∃ st, do_transfer cfgShow true ["a.mp4"] [] orcFailTransfer = RunResult.completed st ∧
      (runMsg (do_transfer cfgShow true ["a.mp4"] [] orcFailTransfer)).isSome = true :=
  isolation_C3 cfgShow true ["a.mp4"] [] orcFailTransfer (by decide) rfl (fun _ => rfl)

/-- C7 counterexample: at a concrete completed run (one file, whose copy
fails and is caught), the posted summary text is
`"剧集: Show\n共处理: 0 个文件\n方式: copy"` — prefixed with `"剧集: "` and
counting successes, not processed files — whereas the claimed literal shape
for this run is `"Show\n共处理: 1 个文件\n方式: copy"`. -/
theorem summary_C7_counterexample :
    runMsg (do_transfer cfgShow true ["x.mp4"] [] orcFailTransfer) =
      some ("剧集: Show" ++ "\n共处理: 0 个文件\n方式: copy") ∧
    runMsg (do_transfer cfgShow true ["x.mp4"] [] orcFailTransfer) ≠
      some ("Show" ++ "\n共处理: 1 个文件\n方式: copy") := by
  refine ⟨by decide, by decide⟩

/-- C7 (amended): the summary text handed to the notification sink has the
literal shape `"剧集: <mediaName>\n共处理: <count> 个文件\n方式: <mode>"`,
where `<count>` is the number of files successfully processed. -/
theorem summary_C7 (cfg : Config) (srcDirOk : Bool) (listing fs0 : List String)
    (orc : FsOracle)
    (hv : ¬(cfg.source_path = "" ∨ cfg.target_path = "" ∨ cfg.media_name = ""))
    (hs : srcDirOk = true)
    (hU : ∀ p, orc.unlinkFails p = false) :
    ∃ st, do_transfer cfg srcDirOk listing fs0 orc = RunResult.completed st ∧
      runMsg (do_transfer cfg srcDirOk listing fs0 orc) =
        some ("剧集: " ++ cfg.media_name ++ "\n共处理: " ++ toString st.successCount ++
          " 个文件\n方式: " ++ cfg.transfer_type) := by
  obtain ⟨st, h1, h2⟩ := run_completes cfg srcDirOk listing fs0 orc hv hs hU
  exact ⟨st, h1, h2⟩

/-- C7 witness: the amended shape at a concrete successful two-file run. -/
theorem summary_C7_witness :
    ∃ st, do_transfer cfgShow true ["e1.mp4", "e2.mp4"] [] orcOk = RunResult.completed st ∧
      runMsg (do_transfer cfgShow true ["e1.mp4", "e2.mp4"] [] orcOk) =
        some ("剧集: " ++ cfgShow.media_name ++ "\n共处理: " ++ toString st.successCount ++
          " 个文件\n方式: " ++ cfgShow.transfer_type) :=
  summary_C7 cfgShow true ["e1.mp4", "e2.mp4"] [] orcOk (by decide) rfl (fun _ => rfl)

/-- The transfer attempt only ever appends a transfer effect for its own
source and destination. -/
theorem attemptOp_effects (cfg : Config) (orc : FsOracle) (srcP dst : String)
    (st : RunState) :
    ∃ tail, (attemptOp cfg orc srcP dst st).effects = st.effects ++ tail ∧
      ∀ e ∈ tail, e = Effect.transferOp cfg.transfer_type srcP dst := by
  unfold attemptOp
  by_cases h1 : isKnownMode cfg.transfer_type = true
  · rw [if_pos h1]
    by_cases h2 : orc.transferFails cfg.transfer_type srcP dst = true
    · rw [if_pos h2]
      exact ⟨[], by simp, by simp⟩
    · rw [if_neg h2]
      refine ⟨[Effect.transferOp cfg.transfer_type srcP dst], rfl, ?_⟩
      intro e he
      simpa using he
  · rw [if_neg h1]
    exact ⟨[], by simp, by simp⟩

/-- One file step appends only an optional unlink of its destination and an
optional template-shaped transfer effect. -/
theorem processFile_effects (cfg : Config) (sn : Int) (tDir : String) (orc : FsOracle)
    (st : RunState) (name : String) :
    ∃ tail, exceptEffects (processFile cfg sn tDir orc st name) = st.effects ++ tail ∧
      ∀ e ∈ tail, stepEffect cfg sn tDir e := by
  have hshape : ∀ e, e = Effect.transferOp cfg.transfer_type (srcPath cfg name)
      (destPath cfg sn tDir st name) → stepEffect cfg sn tDir e := by
    intro e he
    right
    exact ⟨cfg.transfer_type, srcPath cfg name, epAssigned st name,
      strLower (pathSuffix name), he⟩
  simp only [processFile]
  by_cases hm : destPath cfg sn tDir st name ∈ st.fs
  · rw [if_pos hm]
    by_cases hu : orc.unlinkFails (destPath cfg sn tDir st name) = true
    · rw [if_pos hu]
      exact ⟨[], by simp [exceptEffects], by simp⟩
    · rw [if_neg hu]
      obtain ⟨tail, h1, h2⟩ :=
        attemptOp_effects cfg orc (srcPath cfg name) (destPath cfg sn tDir st name)
          { st with
            fallbackEp := fallbackAfter st name
            fs := st.fs.erase (destPath cfg sn tDir st name)
            effects := st.effects ++ [Effect.unlink (destPath cfg sn tDir st name)] }
      refine ⟨Effect.unlink (destPath cfg sn tDir st name) :: tail, ?_, ?_⟩
      · show (attemptOp cfg orc (srcPath cfg name) (destPath cfg sn tDir st name) _).effects = _
        rw [h1]
        dsimp only
        rw [List.append_assoc]
        rfl
      · intro e he
        rcases List.mem_cons.mp he with h | h
        · exact Or.inl ⟨destPath cfg sn tDir st name, h⟩
        · exact hshape e (h2 e h)
  · rw [if_neg hm]
    obtain ⟨tail, h1, h2⟩ :=
      attemptOp_effects cfg orc (srcPath cfg name) (destPath cfg sn tDir st name)
        { st with fallbackEp := fallbackAfter st name }
    refine ⟨tail, ?_, ?_⟩
    · show (attemptOp cfg orc (srcPath cfg name) (destPath cfg sn tDir st name) _).effects = _
      rw [h1]
    · intro e he
      exact hshape e (h2 e he)

/-- The loop only appends unlink effects and template-shaped transfer
effects, in both the normal and the raised outcome. -/
theorem processFiles_effects (cfg : Config) (sn : Int) (tDir : String) (orc : FsOracle) :
    ∀ (l : List String) (st : RunState),
      ∃ tail, exceptEffects (processFiles cfg sn tDir orc l st) = st.effects ++ tail ∧
        ∀ e ∈ tail, stepEffect cfg sn tDir e := by
  intro l
  induction l with
  | nil =>
    intro st
    exact ⟨[], by simp [processFiles, exceptEffects], by simp⟩
  | cons name rest ih =>
    intro st
    obtain ⟨tail0, h0, hm0⟩ := processFile_effects cfg sn tDir orc st name
    cases hpf : processFile cfg sn tDir orc st name with
    | error st1 =>
      rw [hpf] at h0
      refine ⟨tail0, ?_, hm0⟩
      unfold processFiles
      rw [hpf]
      exact h0
    | ok st1 =>
      rw [hpf] at h0
      obtain ⟨tail1, h1, hm1⟩ := ih st1
      refine ⟨tail0 ++ tail1, ?_, ?_⟩
      · unfold processFiles
        rw [hpf, h1]
        show st1.effects ++ tail1 = st.effects ++ (tail0 ++ tail1)
        rw [show st1.effects = st.effects ++ tail0 from h0, List.append_assoc]
      · intro e he
        rcases List.mem_append.mp he with h | h
        · exact hm0 e h
        · exact hm1 e h

/-- Any run past validation opens its effect trace with the creation of the
canonical target directory, followed only by unlinks, template-shaped
transfers and the final notification. -/
theorem run_effects_shape (cfg : Config) (srcDirOk : Bool) (listing fs0 : List String)
    (orc : FsOracle)
    (hv : ¬(cfg.source_path = "" ∨ cfg.target_path = "" ∨ cfg.media_name = ""))
    (hs : srcDirOk = true) :
    ∃ tail, runEffects (do_transfer cfg srcDirOk listing fs0 orc) =
        Effect.mkdirP (target_dir cfg.target_path cfg.media_name (seasonNum cfg.season)) ::
          tail ∧
      ∀ e ∈ tail, stepEffect cfg (seasonNum cfg.season)
          (target_dir cfg.target_path cfg.media_name (seasonNum cfg.season)) e ∨
        ∃ t x, e = Effect.postMsg t x := by
  obtain ⟨tail, h1, h2⟩ :=
    processFiles_effects cfg (seasonNum cfg.season)
      (target_dir cfg.target_path cfg.media_name (seasonNum cfg.season)) orc
      (sortByName (listing.filter eligible))
      { fs := fs0, fallbackEp := 1, successCount := 0,
        effects := [Effect.mkdirP
          (target_dir cfg.target_path cfg.media_name (seasonNum cfg.season))] }
  have hred : do_transfer cfg srcDirOk listing fs0 orc =
      match processFiles cfg (seasonNum cfg.season)
        (target_dir cfg.target_path cfg.media_name (seasonNum cfg.season)) orc
        (sortByName (listing.filter eligible))
        { fs := fs0, fallbackEp := 1, successCount := 0,
          effects := [Effect.mkdirP
            (target_dir cfg.target_path cfg.media_name (seasonNum cfg.season))] } with
      | Except.error st => RunResult.raised st
      | Except.ok st =>
        RunResult.completed
          { st with
            effects := st.effects ++
              [Effect.postMsg "强制整理成功" (msgText cfg st.successCount)] } := by
    simp only [do_transfer]
    rw [if_neg hv, hs]
    rw [if_neg (by simp : ¬(true = false))]
  cases hpl : processFiles cfg (seasonNum cfg.season)
      (target_dir cfg.target_path cfg.media_name (seasonNum cfg.season)) orc
      (sortByName (listing.filter eligible))
      { fs := fs0, fallbackEp := 1, successCount := 0,
        effects := [Effect.mkdirP
          (target_dir cfg.target_path cfg.media_name (seasonNum cfg.season))] } with
  | error st =>
    rw [hpl] at h1 hred
    refine ⟨tail, ?_, fun e he => Or.inl (h2 e he)⟩
    rw [hred]
    exact h1
  | ok st =>
    rw [hpl] at h1 hred
    refine ⟨tail ++ [Effect.postMsg "强制整理成功" (msgText cfg st.successCount)], ?_, ?_⟩
    · rw [hred]
      show st.effects ++ _ = _
      rw [show st.effects =
        Effect.mkdirP (target_dir cfg.target_path cfg.media_name (seasonNum cfg.season)) ::
          tail from h1, List.cons_append]
    · intro e he
      rcases List.mem_append.mp he with h | h
      · exact Or.inl (h2 e h)
      · rcases List.mem_singleton.mp h with rfl
        exact Or.inr ⟨_, _, rfl⟩

/-- C5: past validation, the configured season string is coerced to an
integer (1 when coercion fails), the directory created is exactly
`<targetRoot>/<mediaName>/Season <season>`, and every transfer effect's
destination is exactly
`<that directory>/<mediaName> - S<season:02d>E<episode:02d><ext>`. -/
theorem paths_C5 (cfg : Config) (srcDirOk : Bool) (listing fs0 : List String)
    (orc : FsOracle)
    (hv : ¬(cfg.source_path = "" ∨ cfg.target_path = "" ∨ cfg.media_name = ""))
    (hs : srcDirOk = true) :
    (∀ s, parseIntPy s = none → seasonNum s = 1) ∧
    (∃ rest, runEffects (do_transfer cfg srcDirOk listing fs0 orc) =
      Effect.mkdirP (cfg.target_path ++ "/" ++ cfg.media_name ++ "/Season " ++
        toString (seasonNum cfg.season)) :: rest) ∧
    (∀ m s d, Effect.transferOp m s d ∈ runEffects (do_transfer cfg srcDirOk listing fs0 orc) →
      ∃ ep ext, d = target_dir cfg.target_path cfg.media_name (seasonNum cfg.season) ++
        "/" ++ (cfg.media_name ++ " - S" ++ pad2Int (seasonNum cfg.season) ++ "E" ++
          pad2Nat ep ++ ext)) := by
  obtain ⟨tail, h1, h2⟩ := run_effects_shape cfg srcDirOk listing fs0 orc hv hs
  refine ⟨?_, ⟨tail, h1⟩, ?_⟩
  · intro s h
    unfold seasonNum
    rw [h]
    rfl
  · intro m s d hmem
    rw [h1] at hmem
    rcases List.mem_cons.mp hmem with h | h
    · exact absurd h (by simp)
    · rcases h2 _ h with hstep | ⟨t, x, hpost⟩
      · rcases hstep with ⟨p, hp⟩ | ⟨m2, s2, ep, ext, htr⟩
        · exact absurd hp (by simp)
        · refine ⟨ep, ext, ?_⟩
          have := (Effect.transferOp.injEq _ _ _ _ _ _).mp htr
          exact this.2.2
      · exact absurd hpost (by simp)

/-- C5 witness: a concrete valid run satisfies all three conjuncts. -/
theorem paths_C5_witness :
    (∀ s, parseIntPy s = none → seasonNum s = 1) ∧
    (∃ rest, runEffects (do_transfer cfgShow true ["e1.mp4"] [] orcOk) =
      Effect.mkdirP (cfgShow.target_path ++ "/" ++ cfgShow.media_name ++ "/Season " ++
        toString (seasonNum cfgShow.season)) :: rest) ∧
    (∀ m s d, Effect.transferOp m s d ∈ runEffects (do_transfer cfgShow true ["e1.mp4"] [] orcOk) →
      ∃ ep ext, d = target_dir cfgShow.target_path cfgShow.media_name (seasonNum cfgShow.season) ++
        "/" ++ (cfgShow.media_name ++ " - S" ++ pad2Int (seasonNum cfgShow.season) ++ "E" ++
          pad2Nat ep ++ ext)) :=
  paths_C5 cfgShow true ["e1.mp4"] [] orcOk (by decide) rfl

/-- Explicit outcome of a per-file step on an occupied destination whose
removal and transfer both succeed. -/
theorem processFile_overwrite (cfg : Config) (sn : Int) (tDir : String) (orc : FsOracle)
    (st : RunState) (name : String)
    (hm : isKnownMode cfg.transfer_type = true)
    (hmem : destPath cfg sn tDir st name ∈ st.fs)
    (hU : orc.unlinkFails (destPath cfg sn tDir st name) = false)
    (hT : orc.transferFails cfg.transfer_type (srcPath cfg name)
      (destPath cfg sn tDir st name) = false) :
    processFile cfg sn tDir orc st name = Except.ok
      { fs := fsAfterOp cfg.transfer_type (srcPath cfg name) (destPath cfg sn tDir st name)
          (st.fs.erase (destPath cfg sn tDir st name))
        fallbackEp := fallbackAfter st name
        successCount := st.successCount + 1
        effects := st.effects ++
          [Effect.unlink (destPath cfg sn tDir st name),
           Effect.transferOp cfg.transfer_type (srcPath cfg name)
             (destPath cfg sn tDir st name)] } := by
  simp only [processFile]
  rw [if_pos hmem, hU, if_neg Bool.false_ne_true]
  unfold attemptOp
  rw [if_pos hm, hT, if_neg Bool.false_ne_true]
  simp [List.append_assoc]

/-- C6: when a job's destination path already exists and the operation is
one of the four modes, the pre-existing file is removed first and the
transfer recorded after it, and afterwards exactly one file occupies that
destination path — every surviving path is either the destination itself or
was already present, so nothing is duplicated or renamed aside. -/
theorem overwrite_C6 (cfg : Config) (sn : Int) (tDir : String) (orc : FsOracle)
    (st : RunState) (name : String)
    (hm : isKnownMode cfg.transfer_type = true)
    (hnd : st.fs.Nodup)
    (hmem : destPath cfg sn tDir st name ∈ st.fs)
    (hU : orc.unlinkFails (destPath cfg sn tDir st name) = false)
    (hT : orc.transferFails cfg.transfer_type (srcPath cfg name)
      (destPath cfg sn tDir st name) = false) :
    ∃ st2, processFile cfg sn tDir orc st name = Except.ok st2 ∧
      st2.effects = st.effects ++
        [Effect.unlink (destPath cfg sn tDir st name),
         Effect.transferOp cfg.transfer_type (srcPath cfg name)
           (destPath cfg sn tDir st name)] ∧
      st2.fs.count (destPath cfg sn tDir st name) = 1 ∧
      (∀ p ∈ st2.fs, p = destPath cfg sn tDir st name ∨ p ∈ st.fs) := by
  refine ⟨_, processFile_overwrite cfg sn tDir orc st name hm hmem hU hT, rfl, ?_, ?_⟩
  · have h0 : (st.fs.erase (destPath cfg sn tDir st name)).count
        (destPath cfg sn tDir st name) = 0 := by
      rw [List.count_erase_self]
      have h1 : st.fs.count (destPath cfg sn tDir st name) = 1 :=
        List.count_eq_one_of_mem hnd hmem
      omega
    show (fsAfterOp cfg.transfer_type (srcPath cfg name) (destPath cfg sn tDir st name)
      (st.fs.erase (destPath cfg sn tDir st name))).count (destPath cfg sn tDir st name) = 1
    unfold fsAfterOp
    by_cases hmv : cfg.transfer_type = "move"
    · rw [if_pos hmv, List.count_cons_self]
      have hsub : ((st.fs.erase (destPath cfg sn tDir st name)).erase
          (srcPath cfg name)).count (destPath cfg sn tDir st name) ≤ 0 := by
        rw [← h0]
        exact (List.erase_sublist _ _).count_le _
      omega
    · rw [if_neg hmv, List.count_cons_self]
      omega
  · show ∀ p ∈ fsAfterOp cfg.transfer_type (srcPath cfg name)
        (destPath cfg sn tDir st name) (st.fs.erase (destPath cfg sn tDir st name)),
      p = destPath cfg sn tDir st name ∨ p ∈ st.fs
    intro p hp
    unfold fsAfterOp at hp
    by_cases hmv : cfg.transfer_type = "move"
    · rw [if_pos hmv] at hp
      rcases List.mem_cons.mp hp with h | h
      · exact Or.inl h
      · exact Or.inr (List.erase_subset _ _ (List.erase_subset _ _ h))
    · rw [if_neg hmv] at hp
      rcases List.mem_cons.mp hp with h | h
      · exact Or.inl h
      · exact Or.inr (List.erase_subset _ _ h)

/-- C6 witness: a concrete occupied destination (`e05.mkv` mapping onto an
existing `Show - S01E05.mkv`) is removed and replaced, leaving exactly one
file. -/
theorem overwrite_C6_witness :
    ∃ st2, processFile cfgShow 1 "/t/Show/Season 1" orcOk stPre "e05.mkv" = Except.ok st2 ∧
      st2.effects = stPre.effects ++
        [Effect.unlink (destPath cfgShow 1 "/t/Show/Season 1" stPre "e05.mkv"),
         Effect.transferOp cfgShow.transfer_type (srcPath cfgShow "e05.mkv")
           (destPath cfgShow 1 "/t/Show/Season 1" stPre "e05.mkv")] ∧
      st2.fs.count (destPath cfgShow 1 "/t/Show/Season 1" stPre "e05.mkv") = 1 ∧
      (∀ p ∈ st2.fs,
        p = destPath cfgShow 1 "/t/Show/Season 1" stPre "e05.mkv" ∨ p ∈ stPre.fs) :=
  overwrite_C6 cfgShow 1 "/t/Show/Season 1" orcOk stPre "e05.mkv"
    (by decide) (by decide) (by decide) (by decide) (by decide)

/-- With a transfer type outside the four modes, a per-file step performs no
operation, still removes an occupied destination, and counts a success. -/
theorem processFile_unknown_mode (cfg : Config) (sn : Int) (tDir : String) (orc : FsOracle)
    (st : RunState) (name : String)
    (hm : isKnownMode cfg.transfer_type = false)
    (hU : orc.unlinkFails (destPath cfg sn tDir st name) = false) :
    ∃ st2, processFile cfg sn tDir orc st name = Except.ok st2 ∧
      st2.successCount = st.successCount + 1 ∧
      (destPath cfg sn tDir st name ∈ st.fs →
        st2.fs = st.fs.erase (destPath cfg sn tDir st name) ∧
        st2.effects = st.effects ++ [Effect.unlink (destPath cfg sn tDir st name)]) ∧
      (destPath cfg sn tDir st name ∉ st.fs →
        st2.fs = st.fs ∧ st2.effects = st.effects) := by
  simp only [processFile]
  by_cases hmem : destPath cfg sn tDir st name ∈ st.fs
  · rw [if_pos hmem, hU, if_neg Bool.false_ne_true]
    unfold attemptOp
    rw [if_neg (by rw [hm]; exact Bool.false_ne_true)]
    exact ⟨_, rfl, rfl, fun _ => ⟨rfl, rfl⟩, fun h => absurd hmem h⟩
  · rw [if_neg hmem]
    unfold attemptOp
    rw [if_neg (by rw [hm]; exact Bool.false_ne_true)]
    exact ⟨_, rfl, rfl, fun h => absurd h hmem, fun _ => ⟨rfl, rfl⟩⟩

/-- Looping with an unknown transfer type: every file counts as a success
and only unlink effects are added. -/
theorem processFiles_unknown_mode (cfg : Config) (sn : Int) (tDir : String)
    (orc : FsOracle)
    (hm : isKnownMode cfg.transfer_type = false)
    (hU : ∀ p, orc.unlinkFails p = false) :
    ∀ (l : List String) (st : RunState),
      ∃ st2, processFiles cfg sn tDir orc l st = Except.ok st2 ∧
        st2.successCount = st.successCount + l.length ∧
        ∀ e ∈ st2.effects, e ∈ st.effects ∨ ∃ p, e = Effect.unlink p := by
  intro l
  induction l with
  | nil =>
    intro st
    exact ⟨st, rfl, rfl, fun e he => Or.inl he⟩
  | cons name rest ih =>
    intro st
    obtain ⟨st1, h1, hc1, hin1, hout1⟩ :=
      processFile_unknown_mode cfg sn tDir orc st name hm (hU _)
    obtain ⟨st2, h2, hc2, he2⟩ := ih st1
    refine ⟨st2, ?_, ?_, ?_⟩
    · unfold processFiles
      rw [h1]
      exact h2
    · rw [hc2, hc1, List.length_cons]
      omega
    · intro e he
      rcases he2 e he with h | h
      · by_cases hmem : destPath cfg sn tDir st name ∈ st.fs
        · rcases (hin1 hmem).2 ▸ h with h3
          rcases List.mem_append.mp h3 with h4 | h4
          · exact Or.inl h4
          · exact Or.inr ⟨_, List.mem_singleton.mp h4⟩
        · exact Or.inl ((hout1 hmem).2 ▸ h)
      · exact Or.inr h

/-- C9: with a configured transfer type outside `{move, copy, link,
softlink}`, a validated run completes having performed no transfer
operation at all, reports every eligible file as a success in its summary,
and a per-file step still deletes a pre-existing file at its computed
destination path. -/
theorem unknown_mode_C9 (cfg : Config) (srcDirOk : Bool) (listing fs0 : List String)
    (orc : FsOracle)
    (hm : isKnownMode cfg.transfer_type = false)
    (hv : ¬(cfg.source_path = "" ∨ cfg.target_path = "" ∨ cfg.media_name = ""))
    (hs : srcDirOk = true)
    (hU : ∀ p, orc.unlinkFails p = false) :
    ∃ st, do_transfer cfg srcDirOk listing fs0 orc = RunResult.completed st ∧
      st.successCount = (sortByName (listing.filter eligible)).length ∧
      runMsg (do_transfer cfg srcDirOk listing fs0 orc) =
        some (msgText cfg ((sortByName (listing.filter eligible)).length)) ∧
      (∀ m s d, Effect.transferOp m s d ∉
        runEffects (do_transfer cfg srcDirOk listing fs0 orc)) ∧
      (∀ (st2 : RunState) (name2 : String),
        destPath cfg (seasonNum cfg.season)
            (target_dir cfg.target_path cfg.media_name (seasonNum cfg.season)) st2 name2 ∈
          st2.fs →
        ∃ st3, processFile cfg (seasonNum cfg.season)
            (target_dir cfg.target_path cfg.media_name (seasonNum cfg.season)) orc st2 name2 =
            Except.ok st3 ∧
          st3.fs = st2.fs.erase (destPath cfg (seasonNum cfg.season)
            (target_dir cfg.target_path cfg.media_name (seasonNum cfg.season)) st2 name2) ∧
          Effect.unlink (destPath cfg (seasonNum cfg.season)
            (target_dir cfg.target_path cfg.media_name (seasonNum cfg.season)) st2 name2) ∈
            st3.effects ∧
          st3.successCount = st2.successCount + 1) := by
  obtain ⟨st2, hp, hc, he⟩ :=
    processFiles_unknown_mode cfg (seasonNum cfg.season)
      (target_dir cfg.target_path cfg.media_name (seasonNum cfg.season)) orc hm hU
      (sortByName (listing.filter eligible))
      { fs := fs0, fallbackEp := 1, successCount := 0,
        effects := [Effect.mkdirP
          (target_dir cfg.target_path cfg.media_name (seasonNum cfg.season))] }
  have hrun : do_transfer cfg srcDirOk listing fs0 orc =
      RunResult.completed
        { st2 with
          effects := st2.effects ++
            [Effect.postMsg "强制整理成功" (msgText cfg st2.successCount)] } := by
    simp only [do_transfer]
    rw [if_neg hv, hs]
    rw [if_neg (by simp : ¬(true = false))]
    rw [hp]
  have hcount : st2.successCount = (sortByName (listing.filter eligible)).length := by
    rw [hc]
    exact Nat.zero_add _
  refine ⟨_, hrun, hcount, ?_, ?_, ?_⟩
  · rw [hrun]
    dsimp only [runMsg]
    rw [List.reverse_append, hcount]
    rfl
  · intro m s d hmem
    rw [hrun] at hmem
    dsimp only [runEffects] at hmem
    rcases List.mem_append.mp hmem with h | h
    · rcases he _ h with h2 | ⟨p, h2⟩
      · simp at h2
      · simp at h2
    · simp at h
  · intro stx namex hmemx
    obtain ⟨st3, h3, hc3, hin3, hout3⟩ :=
      processFile_unknown_mode cfg (seasonNum cfg.season)
        (target_dir cfg.target_path cfg.media_name (seasonNum cfg.season)) orc stx namex
        hm (hU _)
    refine ⟨st3, h3, (hin3 hmemx).1, ?_, hc3⟩
    rw [(hin3 hmemx).2]
    exact List.mem_append.mpr (Or.inr (List.mem_singleton.mpr rfl))

/-- C9 witness: a concrete validated `rsync` run over two files completes,
counts 2 successes, performs no transfer, and its per-file step deletes an
occupied destination. -/
theorem unknown_mode_C9_witness :
    ∃ st, do_transfer cfgUnknown true ["a.mp4", "b.mp4"] [] orcOk = RunResult.completed st ∧
      st.successCount = (sortByName (["a.mp4", "b.mp4"].filter eligible)).length ∧
      runMsg (do_transfer cfgUnknown true ["a.mp4", "b.mp4"] [] orcOk) =
        some (msgText cfgUnknown ((sortByName (["a.mp4", "b.mp4"].filter eligible)).length)) ∧
      (∀ m s d, Effect.transferOp m s d ∉
        runEffects (do_transfer cfgUnknown true ["a.mp4", "b.mp4"] [] orcOk)) ∧
      (∀ (st2 : RunState) (name2 : String),
        destPath cfgUnknown (seasonNum cfgUnknown.season)
            (target_dir cfgUnknown.target_path cfgUnknown.media_name
              (seasonNum cfgUnknown.season)) st2 name2 ∈ st2.fs →
        ∃ st3, processFile cfgUnknown (seasonNum cfgUnknown.season)
            (target_dir cfgUnknown.target_path cfgUnknown.media_name
              (seasonNum cfgUnknown.season)) orcOk st2 name2 = Except.ok st3 ∧
          st3.fs = st2.fs.erase (destPath cfgUnknown (seasonNum cfgUnknown.season)
            (target_dir cfgUnknown.target_path cfgUnknown.media_name
              (seasonNum cfgUnknown.season)) st2 name2) ∧
          Effect.unlink (destPath cfgUnknown (seasonNum cfgUnknown.season)
            (target_dir cfgUnknown.target_path cfgUnknown.media_name
              (seasonNum cfgUnknown.season)) st2 name2) ∈ st3.effects ∧
          st3.successCount = st2.successCount + 1) :=
  unknown_mode_C9 cfgUnknown true ["a.mp4", "b.mp4"] [] orcOk
    (by decide) (by decide) rfl (fun _ => rfl)

/-- `UInt32` order reflects to `Nat`. -/
theorem uint32_le_toNat {a b : UInt32} : a ≤ b ↔ a.toNat ≤ b.toNat := by
  rw [UInt32.le_def, BitVec.le_def]
  exact Iff.rfl

/-- `Char.ofNat` on a valid codepoint round-trips through `toNat`. -/
theorem char_toNat_ofNat_valid {m : Nat} (h : m.isValidChar) : (Char.ofNat m).toNat = m := by
  rw [Char.ofNat, dif_pos h]
  simp [Char.ofNatAux, Char.toNat, UInt32.toNat, BitVec.toNat_ofNatLt]

/-- Characters with equal codepoints are equal. -/
theorem char_toNat_inj {a b : Char} (h : a.toNat = b.toNat) : a = b := by
  rw [← Char.ofNat_toNat a, ← Char.ofNat_toNat b, h]

/-- Codepoint arithmetic of the ASCII case mapping. -/
theorem toLower_toNat (c : Char) :
    (Char.toLower c).toNat = if 65 ≤ c.toNat ∧ c.toNat ≤ 90 then c.toNat + 32 else c.toNat := by
  simp only [Char.toLower]
  split
  · rename_i h
    have hv : (c.toNat + 32).isValidChar := by
      unfold Nat.isValidChar
      left
      omega
    exact char_toNat_ofNat_valid hv
  · rfl

/-- Lowercasing never produces an ASCII uppercase codepoint. -/
theorem toLower_not_upper (c : Char) :
    ¬(65 ≤ (Char.toLower c).toNat ∧ (Char.toLower c).toNat ≤ 90) := by
  rw [toLower_toNat]
  split
  · rename_i h
    omega
  · rename_i h
    omega

/-- Lowercasing preserves being (or not being) the dot separator. -/
theorem toLower_eq_dot_iff (c : Char) : Char.toLower c = '.' ↔ c = '.' := by
  constructor
  · intro h
    have h2 : (Char.toLower c).toNat = 46 := by
      rw [h]
      rfl
    rw [toLower_toNat] at h2
    apply char_toNat_inj
    show c.toNat = 46
    split at h2
    · omega
    · exact h2
  · intro h
    subst h
    rfl

/-- The ASCII case mapping is idempotent. -/
theorem toLower_idem (c : Char) : Char.toLower (Char.toLower c) = Char.toLower c := by
  apply char_toNat_inj
  rw [toLower_toNat (Char.toLower c), if_neg (toLower_not_upper c)]

/-- A lowercased character is never an uppercase letter. -/
theorem isUpper_toLower (c : Char) : (Char.toLower c).isUpper = false := by
  have h := toLower_not_upper c
  unfold Char.isUpper
  by_contra hb
  simp only [Bool.and_eq_true, decide_eq_true_eq, Bool.not_eq_false] at hb
  obtain ⟨h1, h2⟩ := hb
  apply h
  constructor
  · have := uint32_le_toNat.mp h1
    simpa using this
  · have := uint32_le_toNat.mp h2
    simpa using this

/-- Lowercasing a filename does not move its last dot. -/
theorem rfindDot_map_toLower (cs : List Char) :
    rfindDot (cs.map Char.toLower) = rfindDot cs := by
  unfold rfindDot
  rw [List.enum_map, List.filter_map]
  have hp : ((fun (p : Nat × Char) => p.2 == '.') ∘ Prod.map id Char.toLower) =
      (fun (p : Nat × Char) => p.2 == '.') := by
    funext p
    show (Char.toLower p.2 == '.') = (p.2 == '.')
    by_cases h : p.2 = '.'
    · rw [h]
      rfl
    · have h2 : Char.toLower p.2 ≠ '.' := fun hx => h ((toLower_eq_dot_iff p.2).mp hx)
      rw [beq_eq_false_iff_ne.mpr h2, beq_eq_false_iff_ne.mpr h]
  rw [hp, List.getLast?_map, Option.map_map]
  rfl

/-- Taking the suffix commutes with lowercasing the whole filename. -/
theorem pathSuffix_strLower (name : String) :
    pathSuffix (strLower name) = strLower (pathSuffix name) := by
  show pathSuffix (String.mk (name.data.map Char.toLower)) = strLower (pathSuffix name)
  unfold pathSuffix
  show (match rfindDot (name.data.map Char.toLower) with
    | some i => if 0 < i ∧ i < (name.data.map Char.toLower).length - 1 then
        String.mk ((name.data.map Char.toLower).drop i) else ""
    | none => "") = _
  rw [rfindDot_map_toLower]
  cases rfindDot name.data with
  | none => rfl
  | some i =>
    simp only [List.length_map]
    split
    · show String.mk ((name.data.map Char.toLower).drop i) =
        strLower (String.mk (name.data.drop i))
      unfold strLower
      rw [List.map_drop]
    · rfl

/-- Lowercasing is idempotent on strings. -/
theorem strLower_idem (s : String) : strLower (strLower s) = strLower s := by
  show String.mk ((s.data.map Char.toLower).map Char.toLower) = String.mk (s.data.map Char.toLower)
  rw [List.map_map]
  congr 1
  exact List.map_congr_left (fun a _ => toLower_idem a)

/-- No character of a lowercased string is an uppercase letter. -/
theorem strLower_no_upper (s : String) : ∀ c ∈ (strLower s).data, c.isUpper = false := by
  intro c hc
  have hc2 : c ∈ s.data.map Char.toLower := hc
  rcases List.mem_map.mp hc2 with ⟨a, _, rfl⟩
  exact isUpper_toLower a

/-- Sharp version of the per-file effect lemma: every appended effect is
the unlink or the transfer of this very job. -/
theorem processFile_new_effects (cfg : Config) (sn : Int) (tDir : String) (orc : FsOracle)
    (st : RunState) (name : String) :
    ∃ tail, exceptEffects (processFile cfg sn tDir orc st name) = st.effects ++ tail ∧
      ∀ e ∈ tail, e = Effect.unlink (destPath cfg sn tDir st name) ∨
        e = Effect.transferOp cfg.transfer_type (srcPath cfg name)
          (destPath cfg sn tDir st name) := by
  simp only [processFile]
  by_cases hm : destPath cfg sn tDir st name ∈ st.fs
  · rw [if_pos hm]
    by_cases hu : orc.unlinkFails (destPath cfg sn tDir st name) = true
    · rw [if_pos hu]
      exact ⟨[], by simp [exceptEffects], by simp⟩
    · rw [if_neg hu]
      obtain ⟨tail, h1, h2⟩ :=
        attemptOp_effects cfg orc (srcPath cfg name) (destPath cfg sn tDir st name)
          { st with
            fallbackEp := fallbackAfter st name
            fs := st.fs.erase (destPath cfg sn tDir st name)
            effects := st.effects ++ [Effect.unlink (destPath cfg sn tDir st name)] }
      refine ⟨Effect.unlink (destPath cfg sn tDir st name) :: tail, ?_, ?_⟩
      · show (attemptOp cfg orc (srcPath cfg name) (destPath cfg sn tDir st name) _).effects = _
        rw [h1]
        dsimp only
        rw [List.append_assoc]
        rfl
      · intro e he
        rcases List.mem_cons.mp he with h | h
        · exact Or.inl h
        · exact Or.inr (h2 e h)
  · rw [if_neg hm]
    obtain ⟨tail, h1, h2⟩ :=
      attemptOp_effects cfg orc (srcPath cfg name) (destPath cfg sn tDir st name)
        { st with fallbackEp := fallbackAfter st name }
    refine ⟨tail, ?_, ?_⟩
    · show (attemptOp cfg orc (srcPath cfg name) (destPath cfg sn tDir st name) _).effects = _
      rw [h1]
    · intro e he
      exact Or.inr (h2 e he)

/-- C10: the allow-list filter is insensitive to the case of the filename
(and hence of its extension); every destination filename embeds the
source's extension lowercased — any transfer effect a file step emits goes
to its `destPath`, whose extension part is `strLower` of the source suffix
and contains no uppercase letter; concretely, `video.MKV` passes the filter
and lands at `Show - S01E01.mkv`. -/
theorem lowercase_C10 (name : String) :
    eligible (strLower name) = eligible name ∧
    (∀ c ∈ (strLower (pathSuffix name)).data, c.isUpper = false) ∧
    (∀ (cfg : Config) (sn : Int) (tDir : String) (orc : FsOracle) (st : RunState)
      (m s d : String),
      Effect.transferOp m s d ∈ exceptEffects (processFile cfg sn tDir orc st name) →
      Effect.transferOp m s d ∈ st.effects ∨
        d = tDir ++ "/" ++ new_filename cfg.media_name sn (epAssigned st name)
          (strLower (pathSuffix name))) ∧
    eligible "video.MKV" = true ∧
    strLower (pathSuffix "video.MKV") = ".mkv" ∧
    exceptEffects (processFile cfgShow 1 "/t/Show/Season 1"
        orcOk { fs := [], fallbackEp := 1, successCount := 0, effects := [] } "video.MKV") =
      [Effect.transferOp "copy" "/s/video.MKV" "/t/Show/Season 1/Show - S01E01.mkv"] := by
  refine ⟨?_, strLower_no_upper (pathSuffix name), ?_, by decide, by decide, by decide⟩
  · unfold eligible
    rw [pathSuffix_strLower, strLower_idem]
  · intro cfg sn tDir orc st m s d hmem
    obtain ⟨tail, h1, h2⟩ := processFile_new_effects cfg sn tDir orc st name
    rw [h1] at hmem
    rcases List.mem_append.mp hmem with h | h
    · exact Or.inl h
    · rcases h2 _ h with h3 | h3
      · exact absurd h3 (by simp)
      · right
        have := (Effect.transferOp.injEq _ _ _ _ _ _).mp h3
        exact this.2.2

/-- C10 witness: the uppercase-extension file's transfer effect targets the
lowercased destination. -/
theorem lowercase_C10_witness :
    Effect.transferOp "copy" "/s/video.MKV" "/t/Show/Season 1/Show - S01E01.mkv" ∈
      ({ fs := [], fallbackEp := 1, successCount := 0, effects := [] } : RunState).effects ∨
    "/t/Show/Season 1/Show - S01E01.mkv" = "/t/Show/Season 1" ++ "/" ++
      new_filename cfgShow.media_name 1
        (epAssigned { fs := [], fallbackEp := 1, successCount := 0, effects := [] } "video.MKV")
        (strLower (pathSuffix "video.MKV")) :=
  (lowercase_C10 "video.MKV").2.2.1 cfgShow 1 "/t/Show/Season 1" orcOk
    { fs := [], fallbackEp := 1, successCount := 0, effects := [] }
    "copy" "/s/video.MKV" "/t/Show/Season 1/Show - S01E01.mkv" (by decide)

/-- C8: in the run over `01.mp4` (episode 1 inferred from its digits) and
`A.mp4` (unknown, so fallback counter value 1), both files are assigned
episode 1 — the fallback counter is not checked against inferred numbers —
and in the full pipeline both therefore target the same destination path,
the second file even deleting the first file's freshly created copy. -/
theorem collision_C8 :
    get_episode (pathStem "01.mp4") = some 1 ∧
    get_episode (pathStem "A.mp4") = none ∧
    assignEpisodes ["01.mp4", "A.mp4"] = [("01.mp4", 1, false), ("A.mp4", 1, true)] ∧
    runEffects (do_transfer cfgShow true ["01.mp4", "A.mp4"] [] orcOk) =
      [Effect.mkdirP "/t/Show/Season 1",
       Effect.transferOp "copy" "/s/01.mp4" "/t/Show/Season 1/Show - S01E01.mp4",
       Effect.unlink "/t/Show/Season 1/Show - S01E01.mp4",
       Effect.transferOp "copy" "/s/A.mp4" "/t/Show/Season 1/Show - S01E01.mp4",
       Effect.postMsg "强制整理成功" "剧集: Show\n共处理: 2 个文件\n方式: copy"] := by
  refine ⟨by decide, by decide, by decide, by decide⟩

/-- C4: when the source path, target path or media name is empty, or the
source directory is missing or not a directory, the run aborts with no
files processed and an empty effect trace — nothing is created, removed or
transferred. -/
theorem validation_C4 (cfg : Config) (srcDirOk : Bool) (listing fs0 : List String)
    (orc : FsOracle)
    (h : cfg.source_path = "" ∨ cfg.target_path = "" ∨ cfg.media_name = "" ∨
      srcDirOk = false) :
    do_transfer cfg srcDirOk listing fs0 orc = RunResult.aborted ∧
    runEffects (do_transfer cfg srcDirOk listing fs0 orc) = [] := by
  have habort : do_transfer cfg srcDirOk listing fs0 orc = RunResult.aborted := by
    unfold do_transfer
    rcases h with h | h | h | h
    · rw [if_pos (Or.inl h)]
    · rw [if_pos (Or.inr (Or.inl h))]
    · rw [if_pos (Or.inr (Or.inr h))]
    · by_cases hv : cfg.source_path = "" ∨ cfg.target_path = "" ∨ cfg.media_name = ""
      · rw [if_pos hv]
      · rw [if_neg hv, if_pos h]
  exact ⟨habort, by rw [habort]; rfl⟩

/-- C4 witness: the empty media name aborts a concrete run untouched. -/
theorem validation_C4_witness :
    do_transfer
        { source_path := "/s", target_path := "/t", media_name := "",
          season := "1", transfer_type := "copy" } true ["a.mp4"] [] orcOk =
      RunResult.aborted ∧
    runEffects
        (do_transfer
          { source_path := "/s", target_path := "/t", media_name := "",
            season := "1", transfer_type := "copy" } true ["a.mp4"] [] orcOk) = [] :=
  validation_C4 _ true ["a.mp4"] [] orcOk (Or.inr (Or.inr (Or.inl rfl)))

/-- C1: the Episode Extractor returns the value of the first
case-insensitive `(e|ep|第)\s*\d+` match when one exists, otherwise the
last maximal digit run worth < 1000 and outside `{264, 265, 720, 480}` when
one exists, otherwise unknown; in particular it evaluates
`"Show.1080p.03"` to 3 and `"Show.Special"` to unknown. -/
theorem extractor_C1 (s : String) :
    get_episode s = episodeSpec s ∧
    get_episode "Show.1080p.03" = some 3 ∧
    get_episode "Show.Special" = none := by
  refine ⟨?_, by decide, by decide⟩
  unfold get_episode episodeSpec
  rw [← searchMarker_eq_firstMarkerValue]
  cases searchMarker s.data with
  | some n => rfl
  | none =>
    simp only
    unfold lastValidRun
    cases h : ((digitRuns s.data).map digitsVal).filter validEpisodeNum with
    | nil => simp [h]
    | cons x xs => simp [h]
